import Mathlib

/-!
Verification development for the mcp-shell-aliases repository.

This file shallowly embeds the guarded-execution core of the repository:
the alias catalog builder (`aliases.py`), the safety classifier
(`safety.py`), the guarded executor and audit logger (`execution.py`),
and the policy checks of the exposed `alias.exec` tool (`server.py`).

Modelling conventions:
* Python strings are `String`/`List Char`; byte streams are `List Nat`.
* Compiled regex patterns of the classifier are modelled by their search
  predicates (`String → Bool`): a predicate returns `true` iff the
  pattern's unanchored search matches somewhere in the string.
* Host-dependent facilities are oracle parameters: `which` models
  `shutil.which`-style command resolution, `res` models
  `Path.expanduser().resolve()` canonicalisation (a canonical absolute
  path being its list of components), and `run` models spawning
  `/bin/bash -lc <command>`; a `ProcBehavior` records what the spawned
  process would do (completion within a timeout, output byte streams,
  the byte streams still collectable after a kill, and the return code).
* Fallible code returns `Except`/`Option`.
-/

namespace McpShellAliases

/-! ### Character classes and string helpers -/

/-- Whitespace as matched by Python's `str.strip` / regex `\s`
(ASCII whitespace, the C1 control block, and the common Unicode spaces). -/
def isPySpace (c : Char) : Bool :=
  c = ' ' || c = '\t' || c = '\n' || c = '\r' ||
  c = '\x0b' || c = '\x0c' ||
  c = '\x1c' || c = '\x1d' || c = '\x1e' || c = '\x1f' ||
  c = '\x85' || c = '\xa0' || c = ' ' ||
  (0x2000 ≤ c.toNat && c.toNat ≤ 0x200a) ||
  c = ' ' || c = ' ' || c = ' ' || c = ' ' || c = '　'

/-- `line.strip()`: drop `isPySpace` characters from both ends. -/
def stripPy (l : List Char) : List Char :=
  ((l.dropWhile isPySpace).reverse.dropWhile isPySpace).reverse

/-- `str.strip()` on `String`. -/
def stripStr (s : String) : String :=
  String.mk (stripPy s.data)

/-! ### Alias line grammar (`ALIAS_REGEX` in `aliases.py`)

`^alias\s+(?P<name>[A-Za-z0-9_\-]+)=(?P<quote>['\"])(?P<expansion>.*)(?P=quote)\s*$`
-/

/-- The name capture group's character class `[A-Za-z0-9_\-]`. -/
def isNameChar (c : Char) : Bool :=
  ('A' ≤ c && c ≤ 'Z') || ('a' ≤ c && c ≤ 'z') || ('0' ≤ c && c ≤ '9') ||
  c = '_' || c = '-'

/-- Match of `(?P<name>...)=(?P<quote>...)(?P<expansion>.*)(?P=quote)\s*$`
after `alias` and at least one whitespace character have been consumed.
Because `.*` is greedy and must be followed by the quote and then only
whitespace, the expansion runs to the last occurrence of the quote whose
suffix is all whitespace; that occurrence is found by dropping trailing
whitespace and requiring the final character to be the quote. -/
def matchAliasRest (rest : List Char) : Option (List Char × Char × List Char) :=
  if rest.takeWhile isPySpace = [] then none
  else
    let r1 := rest.dropWhile isPySpace
    let name := r1.takeWhile isNameChar
    if name = [] then none
    else
      match r1.dropWhile isNameChar with
      | '=' :: q :: r2 =>
        if q = '\'' || q = '"' then
          match r2.reverse.dropWhile isPySpace with
          | [] => none
          | c :: bodyRev => if c = q then some (name, q, bodyRev.reverse) else none
        else none
      | _ => none

/-- `ALIAS_REGEX.match(stripped)`: the parse of one stripped line,
returning the `name`, `quote` and `expansion` capture groups. -/
def matchAliasLine (s : List Char) : Option (List Char × Char × List Char) :=
  if s.take 5 = ['a', 'l', 'i', 'a', 's'] then matchAliasRest (s.drop 5)
  else none

/-! ### `_unescape` and `_is_invalid_name` -/

/-- `str.replace("\\" + q, q)`: left-to-right, non-overlapping. -/
def unescapeQuote (q : Char) : List Char → List Char
  | [] => []
  | [c] => [c]
  | '\\' :: c :: rest =>
    if c = q then q :: unescapeQuote q rest
    else '\\' :: unescapeQuote q (c :: rest)
  | c :: rest => c :: unescapeQuote q rest

/-- `_unescape(expansion, quote)`: undo `\'` for single-quoted bodies and
`\"` for double-quoted bodies; other quotes pass through unmodified. -/
def unescape (body : List Char) (quote : Char) : List Char :=
  if quote = '\'' then unescapeQuote '\'' body
  else if quote = '"' then unescapeQuote '"' body
  else body

/-- One character of the `_is_invalid_name` class ``[\s!$`\\-]``: note the
trailing `-` inside the character class makes a literal hyphen invalid. -/
def isInvalidNameChar (c : Char) : Bool :=
  isPySpace c || c = '!' || c = '$' || c = '`' || c = '\\' || c = '-'

/-- `_is_invalid_name(name)`: `re.search` over the class succeeds iff some
character of the name lies in the class. -/
def isInvalidName (name : List Char) : Bool :=
  name.any isInvalidNameChar

/-! ### Safety classifier (`safety.py`, variant with deny support)

A compiled pattern is modelled by its unanchored search predicate. -/

structure SafetyClassifier where
  allowPatterns : List (String → Bool)
  denyPatterns : List (String → Bool)

/-- `SafetyClassifier.is_safe(expansion)`. -/
def isSafe (cls : SafetyClassifier) (expansion : String) : Bool :=
  if cls.denyPatterns.any (fun p => p expansion) then false
  else if cls.allowPatterns.isEmpty then false
  else cls.allowPatterns.any (fun p => p expansion)

/-! ### Alias records and file parsing (`_parse_file`) -/

structure AliasE where
  name : String
  expansion : String
  safe : Bool
  sourceFile : String
deriving DecidableEq, Repr

/-- The per-line body of `_parse_file`: strip, skip blank and comment
lines, match the grammar, unescape, reject invalid names, classify. -/
def parseLine (cls : String → Bool) (src : String) (line : List Char) :
    Option AliasE :=
  let stripped := stripPy line
  if stripped = [] then none
  else if stripped.head? = some '#' then none
  else
    match matchAliasLine stripped with
    | none => none
    | some (name, q, body) =>
      let expansion := unescape body q
      if isInvalidName name then none
      else
        some { name := String.mk name,
               expansion := String.mk expansion,
               safe := cls (String.mk expansion),
               sourceFile := src }

/-- `_parse_file` over the lines of an existing file. -/
def parseFileLines (cls : String → Bool) (src : String)
    (lines : List (List Char)) : List AliasE :=
  lines.filterMap (parseLine cls src)

/-! ### `shlex.split(expansion, posix=True)` and `_head_command`

A faithful state machine for `shlex` in POSIX mode with whitespace
splitting: single quotes are literal runs, double quotes allow `\"` and
`\\` escapes (other backslashes are kept), a bare backslash escapes the
next character, and an unterminated quote or trailing backslash is a
`ValueError` (modelled as `none`). -/

/-- `shlex.whitespace`. -/
def isShlexWS (c : Char) : Bool :=
  c = ' ' || c = '\t' || c = '\r' || c = '\n'

inductive SMode where
  | ws | word | squote | dquote | escOut | escDq
deriving DecidableEq

/-- The shlex tokenizer loop: mode, "token was quoted" flag, current
token, emitted tokens, remaining input. -/
def shlexRun : SMode → Bool → List Char → List (List Char) → List Char →
    Option (List (List Char))
  | .ws, _, _, acc, [] => some acc
  | .word, quoted, cur, acc, [] =>
    some (if cur ≠ [] || quoted then acc ++ [cur] else acc)
  | .squote, _, _, _, [] => none
  | .dquote, _, _, _, [] => none
  | .escOut, _, _, _, [] => none
  | .escDq, _, _, _, [] => none
  | .ws, quoted, cur, acc, c :: rest =>
    if isShlexWS c then shlexRun .ws false [] acc rest
    else if c = '\'' then shlexRun .squote true cur acc rest
    else if c = '"' then shlexRun .dquote true cur acc rest
    else if c = '\\' then shlexRun .escOut quoted cur acc rest
    else shlexRun .word quoted (cur ++ [c]) acc rest
  | .word, quoted, cur, acc, c :: rest =>
    if isShlexWS c then
      shlexRun .ws false [] (if cur ≠ [] || quoted then acc ++ [cur] else acc) rest
    else if c = '\'' then shlexRun .squote true cur acc rest
    else if c = '"' then shlexRun .dquote true cur acc rest
    else if c = '\\' then shlexRun .escOut quoted cur acc rest
    else shlexRun .word quoted (cur ++ [c]) acc rest
  | .squote, quoted, cur, acc, c :: rest =>
    if c = '\'' then shlexRun .word quoted cur acc rest
    else shlexRun .squote quoted (cur ++ [c]) acc rest
  | .dquote, quoted, cur, acc, c :: rest =>
    if c = '"' then shlexRun .word quoted cur acc rest
    else if c = '\\' then shlexRun .escDq quoted cur acc rest
    else shlexRun .dquote quoted (cur ++ [c]) acc rest
  | .escOut, quoted, cur, acc, c :: rest =>
    shlexRun .word quoted (cur ++ [c]) acc rest
  | .escDq, quoted, cur, acc, c :: rest =>
    shlexRun .dquote quoted
      (cur ++ (if c = '\\' || c = '"' then [c] else ['\\', c])) acc rest

/-- `shlex.split(s, posix=True)`; `none` models the `ValueError` raised on
unterminated quoting. -/
def shlexSplit (s : List Char) : Option (List (List Char)) :=
  shlexRun .ws false [] [] s

/-- `_head_command(expansion)`: `parts[0] if parts else None`, with a
tokenization `ValueError` giving `None`. -/
def headCommand (expansion : String) : Option String :=
  match shlexSplit expansion.data with
  | none => none
  | some [] => none
  | some (t :: _) => some (String.mk t)

/-! ### Availability heuristic and override rule -/

/-- `_BUILTIN_OK`. -/
def builtinOk : List String :=
  ["echo", "printf", "source", ".", "test", "true", "false"]

/-- `_is_command_available(cmd)` with `shutil.which` abstracted as the
`which` oracle; `if not cmd` also rejects the empty string. -/
def isCommandAvailable (which : String → Bool) : Option String → Bool
  | none => false
  | some c =>
    if c = "" then false
    else if builtinOk.contains c then true
    else which c

/-- `_can_override(existing, candidate)`. -/
def canOverride (which : String → Bool) (existing candidate : AliasE) : Bool :=
  let candOk := isCommandAvailable which (headCommand candidate.expansion)
  if candOk then true
  else !(isCommandAvailable which (headCommand existing.expansion))

/-! ### Catalog building (`build_catalog`) -/

/-- One iteration of the inner loop of `build_catalog`: a freshly parsed
alias either fills an empty slot or replaces the existing entry exactly
when `_can_override` allows it. The dict is modelled by its lookup
function. -/
def catalogStep (which : String → Bool) (m : String → Option AliasE)
    (a : AliasE) : String → Option AliasE :=
  match m a.name with
  | none => fun n => if n = a.name then some a else m n
  | some existing =>
    if canOverride which existing a then
      fun n => if n = a.name then some a else m n
    else m

/-- `build_catalog(alias_files, classifier)` over in-memory files given as
`(path, lines)` pairs, folding `catalogStep` over the parsed aliases in
file order. -/
def buildCatalog (which : String → Bool) (cls : String → Bool)
    (files : List (String × List (List Char))) : String → Option AliasE :=
  (files.flatMap (fun pf => parseFileLines cls pf.1 pf.2)).foldl
    (catalogStep which) (fun _ => none)

/-! ### Configuration and execution result (`config.py`, `execution.py`) -/

structure ExecutionLimits where
  maxStdoutBytes : Nat
  maxStderrBytes : Nat
  defaultTimeoutSeconds : Int
deriving DecidableEq, Repr

structure Config where
  defaultCwd : String
  allowCwdRoots : List String
  execution : ExecutionLimits
deriving DecidableEq, Repr

/-- A canonical absolute path: its list of components (`[]` is `/`). -/
abbrev CanonPath := List String

/-- `str(path)` for a canonical absolute path. -/
def pathToString (p : CanonPath) : String :=
  "/" ++ String.intercalate "/" p

structure ExecutionResult where
  command : String
  cwd : CanonPath
  exitCode : Option Int
  stdout : String
  stderr : String
  truncatedStdout : Bool
  truncatedStderr : Bool
  timedOut : Bool
  dryRun : Bool
deriving DecidableEq, Repr

/-- The `args` parameter of `execute_alias`: `Iterable[str] | str | None`. -/
inductive Args where
  | noArgs : Args
  | strArg : String → Args
  | listArgs : List String → Args
deriving DecidableEq, Repr

/-- `_build_command(expansion, args)`. -/
def buildCommand (expansion : String) : Args → String
  | .noArgs => expansion
  | .strArg s =>
    let t := stripStr s
    if t = "" then expansion else expansion ++ " " ++ t
  | .listArgs l =>
    let parts := l.filter (fun t => t ≠ "")
    if parts = [] then expansion
    else expansion ++ " " ++ String.intercalate " " parts

/-! ### Working-directory resolution (`_resolve_cwd`, `_is_within`)

`res` is the canonicalisation oracle modelling
`Path(...).expanduser().resolve()`. -/

/-- `_is_within(path, root)`: `path.relative_to(root)` succeeds on
canonical absolute paths iff `root`'s components are a prefix. -/
def isWithin (path root : CanonPath) : Bool :=
  root.isPrefixOf path

/-- `_resolve_cwd(requested, config)`. -/
def resolveCwd (res : String → CanonPath) (requested : Option String)
    (cfg : Config) : Except String CanonPath :=
  match requested with
  | none => .ok (res cfg.defaultCwd)
  | some r =>
    let resolved := res r
    let allowedRoots := cfg.allowCwdRoots.map res
    if allowedRoots.any (fun root => isWithin resolved root) then .ok resolved
    else .error ("Requested cwd " ++ pathToString resolved ++
      " is outside allowed roots")

/-! ### Environment scrubbing (`_build_env`) -/

def lookupEnv (env : List (String × String)) (k : String) : Option String :=
  (env.find? (fun p => p.1 = k)).map (fun p => p.2)

/-- `_build_env(base_env, config, cwd)`. -/
def buildEnv (base : List (String × String)) (cfg : Config)
    (cwd : CanonPath) : List (String × String) :=
  [("PATH", "/usr/bin:/bin"),
   ("LANG", (lookupEnv base "LANG").getD "C.UTF-8"),
   ("LC_ALL", (lookupEnv base "LC_ALL").getD "C.UTF-8"),
   ("HOME", cfg.defaultCwd),
   ("PWD", pathToString cwd)] ++
  (["LC_CTYPE", "LC_NUMERIC", "LANGUAGE"].filterMap
    (fun k => (lookupEnv base k).map (fun v => (k, v))))

/-! ### UTF-8 decoding with replacement (`bytes.decode("utf-8", errors="replace")`)

Fueled so that evaluation stays definitional; `decodeUtf8` supplies the
byte count as fuel, which is always sufficient because every step
consumes at least one byte. -/

def replChar : Char := Char.ofNat 0xFFFD

def isContByte (b : Nat) : Bool := 0x80 ≤ b && b ≤ 0xBF

/-- Second-byte range of a three-byte sequence led by `b`. -/
def validSecond3 (b b2 : Nat) : Bool :=
  if b = 0xE0 then 0xA0 ≤ b2 && b2 ≤ 0xBF
  else if b = 0xED then 0x80 ≤ b2 && b2 ≤ 0x9F
  else isContByte b2

/-- Second-byte range of a four-byte sequence led by `b`. -/
def validSecond4 (b b2 : Nat) : Bool :=
  if b = 0xF0 then 0x90 ≤ b2 && b2 ≤ 0xBF
  else if b = 0xF4 then 0x80 ≤ b2 && b2 ≤ 0x8F
  else isContByte b2

def decodeUtf8F : Nat → List Nat → List Char
  | 0, _ => []
  | _, [] => []
  | fuel + 1, b :: rest =>
    if b < 0x80 then Char.ofNat b :: decodeUtf8F fuel rest
    else if 0xC2 ≤ b && b ≤ 0xDF then
      match rest with
      | [] => [replChar]
      | b2 :: rest2 =>
        if isContByte b2 then
          Char.ofNat ((b % 32) * 64 + b2 % 64) :: decodeUtf8F fuel rest2
        else replChar :: decodeUtf8F fuel rest
    else if 0xE0 ≤ b && b ≤ 0xEF then
      match rest with
      | [] => [replChar]
      | b2 :: rest2 =>
        if validSecond3 b b2 then
          match rest2 with
          | [] => [replChar]
          | b3 :: rest3 =>
            if isContByte b3 then
              Char.ofNat ((b % 16) * 4096 + (b2 % 64) * 64 + b3 % 64) ::
                decodeUtf8F fuel rest3
            else replChar :: decodeUtf8F fuel rest2
        else replChar :: decodeUtf8F fuel rest
    else if 0xF0 ≤ b && b ≤ 0xF4 then
      match rest with
      | [] => [replChar]
      | b2 :: rest2 =>
        if validSecond4 b b2 then
          match rest2 with
          | [] => [replChar]
          | b3 :: rest3 =>
            if isContByte b3 then
              match rest3 with
              | [] => [replChar]
              | b4 :: rest4 =>
                if isContByte b4 then
                  Char.ofNat ((b % 8) * 262144 + (b2 % 64) * 4096 +
                    (b3 % 64) * 64 + b4 % 64) :: decodeUtf8F fuel rest4
                else replChar :: decodeUtf8F fuel rest3
            else replChar :: decodeUtf8F fuel rest2
        else replChar :: decodeUtf8F fuel rest
    else replChar :: decodeUtf8F fuel rest

def decodeUtf8 (data : List Nat) : List Char :=
  decodeUtf8F data.length data

/-- `_decode_and_truncate(data, limit)`. -/
def decodeAndTruncate (data : List Nat) (limit : Nat) : String × Bool :=
  if data.length ≤ limit then (String.mk (decodeUtf8 data), false)
  else (String.mk (decodeUtf8 (data.take limit)), true)

/-! ### The guarded executor (`execute_alias`) -/

/-- What a spawned process would do: whether `communicate()` finishes
within a given timeout, its full output byte streams and return code, and
the byte streams still collected by `communicate()` after `kill()`. -/
structure ProcBehavior where
  completesWithin : Int → Bool
  stdoutBytes : List Nat
  stderrBytes : List Nat
  returncode : Int
  killedStdout : List Nat
  killedStderr : List Nat

/-- The process-spawn oracle: command, cwd, environment. -/
abbrev RunOracle := String → CanonPath → List (String × String) → ProcBehavior

/-- Line 73: `timeout_override or config.execution.default_timeout_seconds`
(`None` and `0` are falsy; any other value, negative included, is used). -/
def effectiveTimeout (override : Option Int) (default : Int) : Int :=
  match override with
  | none => default
  | some o => if o = 0 then default else o

/-- `asyncio.wait_for(process.communicate(), timeout=t)` raises
`TimeoutError` when the process does not finish within `t`; a
non-positive `t` always times out for a freshly spawned process. -/
def waitTimesOut (proc : ProcBehavior) (t : Int) : Bool :=
  decide (t ≤ 0) || !proc.completesWithin t

/-- `execute_alias(alias, args=..., config=..., dry_run=..., requested_cwd=...,
timeout_override=...)`. -/
def executeAlias (run : RunOracle) (baseEnv : List (String × String))
    (res : String → CanonPath) (al : AliasE) (args : Args) (cfg : Config)
    (dryRun : Bool) (requestedCwd : Option String)
    (timeoutOverride : Option Int) : Except String ExecutionResult :=
  let command := buildCommand al.expansion args
  match resolveCwd res requestedCwd cfg with
  | .error e => .error e
  | .ok cwd =>
    if dryRun then
      .ok { command := command, cwd := cwd, exitCode := none,
            stdout := "Dry run: would execute `" ++ command ++ "` in " ++
              pathToString cwd,
            stderr := "", truncatedStdout := false, truncatedStderr := false,
            timedOut := false, dryRun := true }
    else
      let env := buildEnv baseEnv cfg cwd
      let proc := run command cwd env
      let t := effectiveTimeout timeoutOverride cfg.execution.defaultTimeoutSeconds
      let timedOut := waitTimesOut proc t
      let outBytes := if timedOut then proc.killedStdout else proc.stdoutBytes
      let errBytes := if timedOut then proc.killedStderr else proc.stderrBytes
      let so := decodeAndTruncate outBytes cfg.execution.maxStdoutBytes
      let se := decodeAndTruncate errBytes cfg.execution.maxStderrBytes
      .ok { command := command, cwd := cwd,
            exitCode := if timedOut then none else some proc.returncode,
            stdout := so.1, stderr := se.1,
            truncatedStdout := so.2, truncatedStderr := se.2,
            timedOut := timedOut, dryRun := false }

/-! ### Audit redaction (`_SECRET_PATTERN`, `_redact`)

`re.compile(r"(?i)(token|secret|password)[^\s]*")`, substituted by
`"<redacted>"`: scan left to right; at a case-insensitive occurrence of a
keyword, the match greedily extends over all following non-whitespace.
Fueled by the string length, which suffices because every step consumes
at least one character. -/

def redactedMarker : List Char := "<redacted>".data

/-- Case-insensitive keyword test at the head; returns the suffix after
the keyword. The alternation `(token|secret|password)` is tried in
pattern order. -/
def matchKw (l : List Char) : Option (List Char) :=
  if (l.take 5).map Char.toLower = "token".data then some (l.drop 5)
  else if (l.take 6).map Char.toLower = "secret".data then some (l.drop 6)
  else if (l.take 8).map Char.toLower = "password".data then some (l.drop 8)
  else none

/-- `[^\s]*`: greedily consume non-whitespace after the keyword. -/
def dropSecretTail (l : List Char) : List Char :=
  l.dropWhile (fun c => !isPySpace c)

def redactCharsF : Nat → List Char → List Char
  | 0, l => l
  | _, [] => []
  | fuel + 1, c :: rest =>
    match matchKw (c :: rest) with
    | some suff => redactedMarker ++ redactCharsF fuel (dropSecretTail suff)
    | none => c :: redactCharsF fuel rest

/-- `_SECRET_PATTERN.sub("<redacted>", s)`. -/
def redactStr (s : String) : String :=
  String.mk (redactCharsF s.data.length s.data)

/-! ### JSON values and `json.dumps(..., separators=(",", ":"))` -/

/-- Scalar JSON values occurring in audit records. -/
inductive JScalar where
  | jstr : String → JScalar
  | jbool : Bool → JScalar
  | jint : Int → JScalar
  | jnull : JScalar
deriving DecidableEq, Repr

/-- A value of an audit record: a scalar, or a list (whose elements are
scalars in every record the source builds; `_redact` treats list items
shallowly, redacting string items and keeping the rest). -/
inductive JValue where
  | scalar : JScalar → JValue
  | jlist : List JScalar → JValue
deriving DecidableEq, Repr

def hexDigit (n : Nat) : Char :=
  if n < 10 then Char.ofNat (48 + n) else Char.ofNat (87 + n)

def hex4 (n : Nat) : List Char :=
  [hexDigit (n / 4096 % 16), hexDigit (n / 256 % 16),
   hexDigit (n / 16 % 16), hexDigit (n % 16)]

/-- One character under `json.dumps`' default `ensure_ascii` encoder:
escape `"`, `\`, the short control escapes, other characters outside
`0x20..0x7e` as `\uXXXX` (surrogate pairs above the BMP). -/
def jsonEscapeChar (c : Char) : List Char :=
  if c = '"' then ['\\', '"']
  else if c = '\\' then ['\\', '\\']
  else if c = '\n' then ['\\', 'n']
  else if c = '\t' then ['\\', 't']
  else if c = '\r' then ['\\', 'r']
  else if c = '\x08' then ['\\', 'b']
  else if c = '\x0c' then ['\\', 'f']
  else if c.toNat < 0x20 then '\\' :: 'u' :: hex4 c.toNat
  else if c.toNat < 0x7f then [c]
  else if c.toNat < 0x10000 then '\\' :: 'u' :: hex4 c.toNat
  else
    ('\\' :: 'u' :: hex4 (0xD800 + (c.toNat - 0x10000) / 1024)) ++
    ('\\' :: 'u' :: hex4 (0xDC00 + (c.toNat - 0x10000) % 1024))

def jsonString (s : String) : List Char :=
  '"' :: (s.data.map jsonEscapeChar).flatten ++ ['"']

def dumpScalar : JScalar → List Char
  | .jstr s => jsonString s
  | .jbool b => if b then "true".data else "false".data
  | .jint n => (toString n).data
  | .jnull => "null".data

def dumpJ : JValue → List Char
  | .scalar v => dumpScalar v
  | .jlist l => '[' :: List.intercalate [','] (l.map dumpScalar) ++ [']']

/-- `json.dumps(entry, separators=(",", ":"))` over an ordered record. -/
def jsonDumps (entry : List (String × JValue)) : String :=
  String.mk (Char.ofNat 0x7b ::
    List.intercalate [','] (entry.map (fun kv => jsonString kv.1 ++ ':' :: dumpJ kv.2)) ++
    [Char.ofNat 0x7d])

/-! ### The audit logger (`write_audit_log`, `_format_args`, `_redact`) -/

/-- `_format_args(args)`: `None` becomes `""`, strings pass through, and
sequences are joined with spaces. -/
def formatArgs : Args → String
  | .noArgs => ""
  | .strArg s => s
  | .listArgs l => String.intercalate " " l

def jintOpt : Option Int → JValue
  | none => .scalar .jnull
  | some n => .scalar (.jint n)

/-- The flat audit record built by `write_audit_log`, in insertion order;
the timestamp is a parameter (it is `datetime.now(...).isoformat()` in
the source). -/
def auditEntry (timestamp : String) (al : AliasE) (args : Args)
    (cwd : CanonPath) (result : ExecutionResult) : List (String × JValue) :=
  [("timestamp", .scalar (.jstr timestamp)),
   ("alias", .scalar (.jstr al.name)),
   ("safe", .scalar (.jbool al.safe)),
   ("args", .scalar (.jstr (formatArgs args))),
   ("cwd", .scalar (.jstr (pathToString cwd))),
   ("command", .scalar (.jstr result.command)),
   ("exitCode", jintOpt result.exitCode),
   ("timedOut", .scalar (.jbool result.timedOut)),
   ("dryRun", .scalar (.jbool result.dryRun))]

/-- List elements in `_redact`: string items are redacted, others kept. -/
def redactItem : JScalar → JScalar
  | .jstr s => .jstr (redactStr s)
  | v => v

/-- A value in `_redact`: strings are redacted, lists have their string
elements redacted, everything else is kept. -/
def redactJ : JValue → JValue
  | .scalar v => .scalar (redactItem v)
  | .jlist l => .jlist (l.map redactItem)

/-- `_redact(entry)`. -/
def redactEntry (entry : List (String × JValue)) : List (String × JValue) :=
  entry.map (fun kv => (kv.1, redactJ kv.2))

/-- The single line `write_audit_log` appends (without the trailing
newline): `json.dumps(_redact(entry), separators=(",", ":"))`. -/
def auditPayload (timestamp : String) (al : AliasE) (args : Args)
    (cwd : CanonPath) (result : ExecutionResult) : String :=
  jsonDumps (redactEntry (auditEntry timestamp al args cwd result))

/-! ### The exposed `alias.exec` tool (`server.py`)

`ToolError` messages are the error strings; the catalog with hot reload
is modelled by its lookup function; on success the returned payload
carries the execution result, the audit line that was appended, and the
extra `aliasSafe`/`sourceFile` fields. An `Except.error` return models a
raise before any subprocess ran and before any audit line was written. -/

structure ExecOutcome where
  result : ExecutionResult
  auditLine : String
  aliasSafe : Bool
  sourceFile : String
deriving DecidableEq, Repr

def argsOfOpt : Option String → Args
  | none => .noArgs
  | some s => .strArg s

/-- The tail of `alias_exec`: delegate to `execute_alias`, turn
`CwdNotAllowedError` into a `ToolError`, then `write_audit_log`. -/
def aliasExecFinish (run : RunOracle) (baseEnv : List (String × String))
    (res : String → CanonPath) (timestamp : String) (al : AliasE)
    (cfg : Config) (dryRun : Bool) (requestedCwd : Option String)
    (normalizedArgs : Option String) (override : Option Int) :
    Except String ExecOutcome :=
  match executeAlias run baseEnv res al (argsOfOpt normalizedArgs) cfg dryRun
      requestedCwd override with
  | .error e => .error e
  | .ok result =>
    .ok { result := result,
          auditLine := auditPayload timestamp al (argsOfOpt normalizedArgs)
            result.cwd result,
          aliasSafe := al.safe,
          sourceFile := al.sourceFile }

/-- `alias_exec(name, args, dry_run, confirm, cwd, timeout_seconds)`. -/
def aliasExec (run : RunOracle) (baseEnv : List (String × String))
    (res : String → CanonPath) (timestamp : String)
    (catalog : String → Option AliasE) (cfg : Config) (name : String)
    (args : Option String) (dryRun confirm : Bool) (cwd : Option String)
    (timeoutSeconds : Option Int) : Except String ExecOutcome :=
  if !dryRun && !confirm then
    .error "Execution requires confirm=true; dry_run is enabled otherwise."
  else
    match catalog name with
    | none => .error ("Alias '" ++ name ++ "' is not defined")
    | some al =>
      if !al.safe && !dryRun then
        .error "Alias is not marked safe. Only dry_run executions are permitted unless it matches allow patterns."
      else
        let requestedCwd : Option String :=
          match cwd with
          | none => none
          | some s => if s = "" then none else some s
        let normalizedArgs : Option String :=
          match args with
          | none => none
          | some a => if a = "" then none
                      else if stripStr a = "" then none
                      else some (stripStr a)
        match timeoutSeconds with
        | none =>
          aliasExecFinish run baseEnv res timestamp al cfg dryRun requestedCwd
            normalizedArgs none
        | some ts =>
          if ts ≤ 0 then .error "timeout_seconds must be positive."
          else if ts > max cfg.execution.defaultTimeoutSeconds 1 * 5 then
            .error "timeout_seconds may not exceed the configured maximum."
          else
            aliasExecFinish run baseEnv res timestamp al cfg dryRun requestedCwd
              normalizedArgs (some ts)

/-! ## Theorems -/

/-- C3: `is_safe` returns false when any deny pattern matches (regardless
of allow matches), returns false whenever the compiled allow-pattern list
is empty, and otherwise returns true iff at least one allow pattern
matches somewhere in the expansion (each compiled pattern being modelled
by its unanchored search predicate). -/
theorem C3_classifier_semantics :
    ∀ (cls : SafetyClassifier) (e : String),
      (cls.denyPatterns.any (fun p => p e) = true → isSafe cls e = false) ∧
      (cls.allowPatterns = [] → isSafe cls e = false) ∧
      (cls.denyPatterns.any (fun p => p e) = false →
        (isSafe cls e = true ↔ cls.allowPatterns.any (fun p => p e) = true)) := by
  intro cls e
  refine ⟨fun h => by simp [isSafe, h], fun h => by simp [isSafe, h], fun h => ?_⟩
  by_cases hA : cls.allowPatterns = []
  · simp [isSafe, h, hA]
  · simp [isSafe, h, hA]

def denyRmPat : String → Bool := fun s => s.data.take 2 == "rm".data

def allowAllPat : String → Bool := fun _ => true

def allowLsPat : String → Bool := fun s => s.data.take 2 == "ls".data

theorem C3_classifier_semantics_witness :
    (isSafe ⟨[allowAllPat], [denyRmPat]⟩ "rm -rf /" = false) ∧
    (isSafe ⟨[], []⟩ "ls -al" = false) ∧
    (isSafe ⟨[allowLsPat], [denyRmPat]⟩ "ls -al" = true ↔
      [allowLsPat].any (fun p => p "ls -al") = true) := by
  refine ⟨?_, ?_, ?_⟩
  · exact (C3_classifier_semantics ⟨[allowAllPat], [denyRmPat]⟩ "rm -rf /").1 (by decide)
  · exact (C3_classifier_semantics ⟨[], []⟩ "ls -al").2.1 rfl
  · exact (C3_classifier_semantics ⟨[allowLsPat], [denyRmPat]⟩ "ls -al").2.2 (by decide)

/-- C2: a later-file duplicate replaces the existing catalog entry iff
the candidate's head command is available, or both the candidate's and
the existing definition's head commands are unavailable; a candidate
whose expansion fails shlex tokenization has no head command and counts
as unavailable; availability means membership in the fixed builtin
allow-list or resolution by the host `which` oracle (for which the empty
string never resolves, as with `shutil.which`). -/
theorem C2_override_rule :
    ∀ (which : String → Bool), which "" = false →
    ∀ (existing candidate : AliasE) (m : String → Option AliasE),
      (canOverride which existing candidate = true ↔
        (isCommandAvailable which (headCommand candidate.expansion) = true ∨
         (isCommandAvailable which (headCommand candidate.expansion) = false ∧
          isCommandAvailable which (headCommand existing.expansion) = false))) ∧
      (∀ c : String, isCommandAvailable which (some c) =
        (builtinOk.contains c || which c)) ∧
      (∀ e : String, shlexSplit e.data = none →
        isCommandAvailable which (headCommand e) = false) ∧
      (m candidate.name = some existing →
        catalogStep which m candidate candidate.name =
          some (if canOverride which existing candidate then candidate
                else existing)) := by
  intro which hw existing candidate m
  refine ⟨?_, ?_, ?_, ?_⟩
  · unfold canOverride
    cases h1 : isCommandAvailable which (headCommand candidate.expansion) <;>
      cases h2 : isCommandAvailable which (headCommand existing.expansion) <;>
      simp [h1, h2]
  · intro c
    by_cases hc : c = ""
    · subst hc
      have hb : builtinOk.contains "" = false := by decide
      have hm : ¬("" ∈ builtinOk) := by decide
      simp [isCommandAvailable, hw, hb, hm]
    · cases hb : builtinOk.contains c
      · have hm : ¬(c ∈ builtinOk) := by simp at hb; exact hb
        simp [isCommandAvailable, hc, hm]
      · have hm : c ∈ builtinOk := by simp at hb; exact hb
        simp [isCommandAvailable, hc, hm]
  · intro e he
    simp [headCommand, he, isCommandAvailable]
  · intro hm
    unfold catalogStep
    rw [hm]
    cases ho : canOverride which existing candidate <;> simp [ho, hm]

def whichLs : String → Bool := fun c => c == "ls"

def aliasLsAl : AliasE :=
  { name := "ll", expansion := "ls -al", safe := true, sourceFile := "a" }

def aliasGls : AliasE :=
  { name := "ll", expansion := "gls -lhF --color=auto", safe := true,
    sourceFile := "b" }

def catalogLl : String → Option AliasE :=
  fun n => if n = "ll" then some aliasLsAl else none

theorem C2_override_rule_witness :
    (canOverride whichLs aliasLsAl aliasGls = true ↔
      (isCommandAvailable whichLs (headCommand aliasGls.expansion) = true ∨
       (isCommandAvailable whichLs (headCommand aliasGls.expansion) = false ∧
        isCommandAvailable whichLs (headCommand aliasLsAl.expansion) = false))) ∧
    (isCommandAvailable whichLs (some "gls") =
      (builtinOk.contains "gls" || whichLs "gls")) ∧
    (isCommandAvailable whichLs (headCommand "echo 'unterminated") = false) ∧
    (catalogStep whichLs catalogLl aliasGls "ll" =
      some (if canOverride whichLs aliasLsAl aliasGls then aliasGls
            else aliasLsAl)) := by
  have h := C2_override_rule whichLs (by decide) aliasLsAl aliasGls catalogLl
  exact ⟨h.1, h.2.1 "gls", h.2.2.1 "echo 'unterminated" (by decide),
         h.2.2.2 (by decide)⟩

theorem matchAliasLine_head {s : List Char} {t : List Char × Char × List Char}
    (h : matchAliasLine s = some t) : s.head? = some 'a' := by
  unfold matchAliasLine at h
  by_cases h5 : s.take 5 = ['a', 'l', 'i', 'a', 's']
  · cases s with
    | nil => simp at h5
    | cons c cs =>
      simp [List.take_succ_cons] at h5
      simp [h5.1]
  · simp [h5] at h

/-- C1 (amended): for every line whose stripped form matches the alias
grammar and whose parsed name contains none of whitespace, `!`, `$`,
backtick, backslash, **or hyphen**, the parse produces an `Alias` whose
name is the parsed name, whose expansion is the quoted body with
quote-escapes undone, and whose safe flag is the classifier's verdict on
that expansion. (The hyphen is the amendment: the extra validation pass
`_is_invalid_name` also rejects hyphens, which the grammar admits.) -/
theorem C1_parse_wellformed_amended :
    ∀ (cls : String → Bool) (src : String) (line : List Char)
      (name : List Char) (q : Char) (body : List Char),
      matchAliasLine (stripPy line) = some (name, q, body) →
      (∀ c ∈ name, isPySpace c = false ∧ c ≠ '!' ∧ c ≠ '$' ∧ c ≠ '`' ∧
        c ≠ '\\' ∧ c ≠ '-') →
      parseLine cls src line =
        some { name := String.mk name,
               expansion := String.mk (unescape body q),
               safe := cls (String.mk (unescape body q)),
               sourceFile := src } := by
  intro cls src line name q body hm hname
  have hhead := matchAliasLine_head hm
  have hne : stripPy line ≠ [] := by
    intro h0
    rw [h0] at hhead
    simp at hhead
  have hnh : ¬((stripPy line).head? = some '#') := by
    rw [hhead]
    intro hcontra
    simp at hcontra
  have hinv : isInvalidName name = false := by
    unfold isInvalidName
    cases hA : name.any isInvalidNameChar
    · rfl
    · exfalso
      rw [List.any_eq_true] at hA
      obtain ⟨c, hc, hp⟩ := hA
      obtain ⟨w1, w2, w3, w4, w5, w6⟩ := hname c hc
      unfold isInvalidNameChar at hp
      simp [w1, w2, w3, w4, w5, w6] at hp
  unfold parseLine
  rw [if_neg hne, if_neg hnh, hm]
  simp [hinv]

/-- C1 counterexample: `alias g-s='git status'` matches the grammar with
name `g-s`, which contains none of whitespace, `!`, `$`, backtick, or
backslash, yet `_parse_file` produces no alias for it — the extra
validation pass also rejects hyphens. -/
theorem C1_parse_wellformed_counterexample :
    matchAliasLine (stripPy "alias g-s='git status'".data) =
      some ("g-s".data, '\'', "git status".data) ∧
    ("g-s".data.all (fun c => !(isPySpace c || c = '!' || c = '$' ||
      c = '`' || c = '\\')) = true) ∧
    parseLine (fun _ => true) "file" "alias g-s='git status'".data = none ∧
    parseFileLines (fun _ => true) "file" ["alias g-s='git status'".data] = [] := by
  refine ⟨by decide, by decide, by decide, by decide⟩

theorem C1_parse_wellformed_witness :
    parseLine (fun s => s == "ls -al") "f" "alias ll='ls -al'".data =
      some { name := "ll", expansion := "ls -al", safe := true,
             sourceFile := "f" } := by
  have h := C1_parse_wellformed_amended (fun s => s == "ls -al") "f"
    "alias ll='ls -al'".data "ll".data '\'' "ls -al".data (by decide) (by decide)
  exact h

/-- Whether an `Except` is a success. -/
def exceptIsOk {e a : Type} : Except e a → Bool
  | .ok _ => true
  | .error _ => false

/-! Concrete fixtures used by witnesses and counterexamples. -/

/-- A canonicalisation oracle for a tiny filesystem rooted in `/tmp/x`. -/
def resTmp : String → CanonPath := fun s =>
  if s = "/" then []
  else if s = "/tmp/x" then ["tmp", "x"]
  else if s = "/tmp/x/sub" then ["tmp", "x", "sub"]
  else []

def cfgTmp : Config :=
  { defaultCwd := "/tmp/x", allowCwdRoots := ["/tmp/x"],
    execution := { maxStdoutBytes := 1000, maxStderrBytes := 1000,
                   defaultTimeoutSeconds := 5 } }

def aliasEcho : AliasE :=
  { name := "greet", expansion := "echo hi", safe := true, sourceFile := "f" }

/-- A process that finishes within any positive timeout. -/
def runFast : RunOracle := fun _ _ _ =>
  { completesWithin := fun t => decide (0 < t),
    stdoutBytes := [104, 105], stderrBytes := [], returncode := 0,
    killedStdout := [104], killedStderr := [] }

/-- A process that never finishes within any timeout. -/
def runSlow : RunOracle := fun _ _ _ =>
  { completesWithin := fun _ => false,
    stdoutBytes := [104, 105], stderrBytes := [], returncode := 0,
    killedStdout := [112, 97, 114], killedStderr := [101] }

/-- C4: with a requested working directory, `execute_alias` canonicalises
it and — whenever the canonical path is not equal to or a descendant of
any canonicalised allow-root — returns the `CwdNotAllowed` error naming
the attempted path, for every process oracle (so no subprocess is
spawned and no `ExecutionResult` is produced); when some allow-root does
contain the canonical path, the call succeeds and runs there. -/
theorem C4_cwd_containment :
    (∀ (run : RunOracle) (baseEnv : List (String × String))
       (res : String → CanonPath) (al : AliasE) (args : Args) (cfg : Config)
       (dryRun : Bool) (r : String) (over : Option Int),
       (cfg.allowCwdRoots.map res).all (fun root => !(isWithin (res r) root)) = true →
       executeAlias run baseEnv res al args cfg dryRun (some r) over =
         .error ("Requested cwd " ++ pathToString (res r) ++
           " is outside allowed roots")) ∧
    (∀ (run : RunOracle) (baseEnv : List (String × String))
       (res : String → CanonPath) (al : AliasE) (args : Args) (cfg : Config)
       (dryRun : Bool) (r : String) (over : Option Int),
       (cfg.allowCwdRoots.map res).any (fun root => isWithin (res r) root) = true →
       ∃ result, executeAlias run baseEnv res al args cfg dryRun (some r) over =
         .ok result ∧ result.cwd = res r) := by
  constructor
  · intro run baseEnv res al args cfg dryRun r over hall
    have hany : (cfg.allowCwdRoots.map res).any
        (fun root => isWithin (res r) root) = false := by
      cases hA : (cfg.allowCwdRoots.map res).any (fun root => isWithin (res r) root)
      · rfl
      · exfalso
        rw [List.any_eq_true] at hA
        obtain ⟨root, hmem, hwin⟩ := hA
        rw [List.all_eq_true] at hall
        have := hall root hmem
        simp [hwin] at this
    unfold executeAlias resolveCwd
    simp [hany]
  · intro run baseEnv res al args cfg dryRun r over hany
    unfold executeAlias resolveCwd
    simp only [hany, if_true]
    cases dryRun
    · exact ⟨_, rfl, rfl⟩
    · exact ⟨_, rfl, rfl⟩

theorem C4_cwd_containment_witness :
    (executeAlias runFast [] resTmp aliasEcho .noArgs cfgTmp false (some "/") none =
      .error "Requested cwd / is outside allowed roots") ∧
    (exceptIsOk (executeAlias runFast [] resTmp aliasEcho .noArgs cfgTmp false
      (some "/tmp/x/sub") none) = true) ∧
    ((executeAlias runFast [] resTmp aliasEcho .noArgs cfgTmp false
      (some "/tmp/x/sub") none).map (fun r => r.cwd) =
      .ok ["tmp", "x", "sub"]) := by
  refine ⟨?_, ?_, ?_⟩
  · exact C4_cwd_containment.1 runFast [] resTmp aliasEcho .noArgs cfgTmp false
      "/" none (by decide)
  · obtain ⟨result, hok, hcwd⟩ := C4_cwd_containment.2 runFast [] resTmp aliasEcho
      .noArgs cfgTmp false "/tmp/x/sub" none (by decide)
    rw [hok]
    rfl
  · obtain ⟨result, hok, hcwd⟩ := C4_cwd_containment.2 runFast [] resTmp aliasEcho
      .noArgs cfgTmp false "/tmp/x/sub" none (by decide)
    rw [hok]
    show Except.ok result.cwd = Except.ok ["tmp", "x", "sub"]
    rw [hcwd]
    rfl

/-- C9: a dry run never consults the process oracle (two arbitrary oracles
give identical outcomes) and, when the working directory resolves, the
returned result has `dryRun=true`, null exit code, `timedOut=false`, both
truncation flags false, empty stderr, and a stdout line naming the
assembled command and resolved directory. -/
theorem C9_dry_run :
    (∀ (run : RunOracle) (baseEnv : List (String × String))
       (res : String → CanonPath) (al : AliasE) (args : Args) (cfg : Config)
       (reqCwd : Option String) (over : Option Int) (cwd : CanonPath),
       resolveCwd res reqCwd cfg = .ok cwd →
       executeAlias run baseEnv res al args cfg true reqCwd over =
         .ok { command := buildCommand al.expansion args, cwd := cwd,
               exitCode := none,
               stdout := "Dry run: would execute `" ++
                 buildCommand al.expansion args ++ "` in " ++ pathToString cwd,
               stderr := "", truncatedStdout := false, truncatedStderr := false,
               timedOut := false, dryRun := true }) ∧
    (∀ (run1 run2 : RunOracle) (baseEnv : List (String × String))
       (res : String → CanonPath) (al : AliasE) (args : Args) (cfg : Config)
       (reqCwd : Option String) (over : Option Int),
       executeAlias run1 baseEnv res al args cfg true reqCwd over =
       executeAlias run2 baseEnv res al args cfg true reqCwd over) := by
  constructor
  · intro run baseEnv res al args cfg reqCwd over cwd hres
    unfold executeAlias
    rw [hres]
    rfl
  · intro run1 run2 baseEnv res al args cfg reqCwd over
    unfold executeAlias
    cases resolveCwd res reqCwd cfg <;> rfl

theorem C9_dry_run_witness :
    executeAlias runFast [] resTmp aliasEcho .noArgs cfgTmp true none none =
      .ok { command := "echo hi", cwd := ["tmp", "x"], exitCode := none,
            stdout := "Dry run: would execute `echo hi` in /tmp/x",
            stderr := "", truncatedStdout := false, truncatedStderr := false,
            timedOut := false, dryRun := true } := by
  have h := C9_dry_run.1 runFast [] resTmp aliasEcho .noArgs cfgTmp none none
    ["tmp", "x"] rfl
  exact h

/-- C10: when no working directory is requested, `execute_alias` uses the
canonicalised configured default without checking it against the
allow-roots: the outcome is identical under any two allow-root lists, is
always a success (no `CwdNotAllowed`), and runs in the resolved default
directory — even when that directory lies outside every allow-root. -/
theorem C10_default_cwd_unchecked :
    ∀ (run : RunOracle) (baseEnv : List (String × String))
      (res : String → CanonPath) (al : AliasE) (args : Args) (cfg : Config)
      (roots1 roots2 : List String) (dryRun : Bool) (over : Option Int),
      (∃ result,
        executeAlias run baseEnv res al args { cfg with allowCwdRoots := roots1 }
          dryRun none over = .ok result ∧ result.cwd = res cfg.defaultCwd) ∧
      executeAlias run baseEnv res al args { cfg with allowCwdRoots := roots1 }
          dryRun none over =
        executeAlias run baseEnv res al args { cfg with allowCwdRoots := roots2 }
          dryRun none over := by
  intro run baseEnv res al args cfg roots1 roots2 dryRun over
  cases dryRun
  · exact ⟨⟨_, rfl, rfl⟩, rfl⟩
  · exact ⟨⟨_, rfl, rfl⟩, rfl⟩

/-- The timeout selection C6 claims, in the spec's words: the override if
given and positive, else the configured default. Stated only for
comparison with `effectiveTimeout`, the embedding of line 73. -/
def specEffectiveTimeout (override : Option Int) (default : Int) : Int :=
  match override with
  | none => default
  | some o => if 0 < o then o else default

/-- C6 counterexample: `timeout_override or default` treats only `None`
and `0` as absent, so the negative override `-1` is used as the effective
timeout instead of the default demanded by the claim, and the same call
that completes under the default timeout is reported timed out under the
`-1` override. -/
theorem C6_timeout_counterexample :
    effectiveTimeout (some (-1)) 20 = -1 ∧
    specEffectiveTimeout (some (-1)) 20 = 20 ∧
    (decide (effectiveTimeout (some (-1)) 20 =
      specEffectiveTimeout (some (-1)) 20) = false) ∧
    (executeAlias runFast [] resTmp aliasEcho .noArgs cfgTmp false none
        (some (-1))).map (fun r => (r.timedOut, r.exitCode)) =
      .ok (true, none) ∧
    (executeAlias runFast [] resTmp aliasEcho .noArgs cfgTmp false none
        none).map (fun r => (r.timedOut, r.exitCode)) =
      .ok (false, some 0) := by
  refine ⟨rfl, rfl, by decide, rfl, rfl⟩

/-- C6 (amended): the effective timeout is the override if one is given
and nonzero (`None` and `0` fall back to the configured default; a
negative override is used as-is and expires immediately); when the
effective timeout expires, the process is killed, the output still
collected after the kill is decoded and truncated, the result's
`timedOut` flag is true, and its exit code is null rather than any
partial return code. -/
theorem C6_timeout_behavior_amended :
    (∀ d : Int, effectiveTimeout none d = d) ∧
    (∀ d : Int, effectiveTimeout (some 0) d = d) ∧
    (∀ o d : Int, o ≠ 0 → effectiveTimeout (some o) d = o) ∧
    (∀ (run : RunOracle) (baseEnv : List (String × String))
       (res : String → CanonPath) (al : AliasE) (args : Args) (cfg : Config)
       (reqCwd : Option String) (over : Option Int) (cwd : CanonPath)
       (proc : ProcBehavior),
       resolveCwd res reqCwd cfg = .ok cwd →
       proc = run (buildCommand al.expansion args) cwd (buildEnv baseEnv cfg cwd) →
       waitTimesOut proc (effectiveTimeout over cfg.execution.defaultTimeoutSeconds) = true →
       executeAlias run baseEnv res al args cfg false reqCwd over =
         .ok { command := buildCommand al.expansion args, cwd := cwd,
               exitCode := none,
               stdout := (decodeAndTruncate proc.killedStdout
                 cfg.execution.maxStdoutBytes).1,
               stderr := (decodeAndTruncate proc.killedStderr
                 cfg.execution.maxStderrBytes).1,
               truncatedStdout := (decodeAndTruncate proc.killedStdout
                 cfg.execution.maxStdoutBytes).2,
               truncatedStderr := (decodeAndTruncate proc.killedStderr
                 cfg.execution.maxStderrBytes).2,
               timedOut := true, dryRun := false }) := by
  refine ⟨fun d => rfl, fun d => rfl, ?_, ?_⟩
  · intro o d ho
    simp [effectiveTimeout, ho]
  · intro run baseEnv res al args cfg reqCwd over cwd proc hres hproc htime
    subst hproc
    unfold executeAlias
    rw [hres]
    simp [htime]

theorem C6_timeout_behavior_amended_witness :
    effectiveTimeout (some 7) 5 = 7 ∧
    executeAlias runSlow [] resTmp aliasEcho .noArgs cfgTmp false none (some 1) =
      .ok { command := "echo hi", cwd := ["tmp", "x"], exitCode := none,
            stdout := "par", stderr := "e",
            truncatedStdout := false, truncatedStderr := false,
            timedOut := true, dryRun := false } := by
  constructor
  · exact C6_timeout_behavior_amended.2.2.1 7 5 (by decide)
  · have h := C6_timeout_behavior_amended.2.2.2 runSlow [] resTmp aliasEcho
      .noArgs cfgTmp none (some 1) ["tmp", "x"]
      (runSlow "echo hi" ["tmp", "x"] (buildEnv [] cfgTmp ["tmp", "x"]))
      rfl rfl rfl
    exact h

theorem decodeUtf8F_replicate_x :
    ∀ n : Nat, decodeUtf8F n (List.replicate n 120) = List.replicate n 'x' := by
  intro n
  induction n with
  | zero => rfl
  | succ k ih =>
    rw [List.replicate_succ]
    have hstep : decodeUtf8F (k + 1) (120 :: List.replicate k 120) =
        Char.ofNat 120 :: decodeUtf8F k (List.replicate k 120) := by
      simp [decodeUtf8F]
    rw [hstep, ih]
    rfl

/-- C7: a captured byte stream longer than its configured limit has
exactly its first `limit` bytes decoded (with replacement) and the
truncated flag set; a stream within the limit is decoded in full with the
flag clear; in a completed execution stdout and stderr are processed
independently against their own limits; and a 5000-byte ASCII stdout
under a 1000-byte limit yields a returned stdout of length exactly 1000
with the truncation flag set. -/
theorem C7_output_truncation :
    (∀ (data : List Nat) (limit : Nat), data.length ≤ limit →
      decodeAndTruncate data limit = (String.mk (decodeUtf8 data), false)) ∧
    (∀ (data : List Nat) (limit : Nat), limit < data.length →
      decodeAndTruncate data limit =
        (String.mk (decodeUtf8 (data.take limit)), true)) ∧
    (∀ (run : RunOracle) (baseEnv : List (String × String))
       (res : String → CanonPath) (al : AliasE) (args : Args) (cfg : Config)
       (reqCwd : Option String) (over : Option Int) (cwd : CanonPath)
       (proc : ProcBehavior),
       resolveCwd res reqCwd cfg = .ok cwd →
       proc = run (buildCommand al.expansion args) cwd (buildEnv baseEnv cfg cwd) →
       waitTimesOut proc (effectiveTimeout over cfg.execution.defaultTimeoutSeconds) = false →
       executeAlias run baseEnv res al args cfg false reqCwd over =
         .ok { command := buildCommand al.expansion args, cwd := cwd,
               exitCode := some proc.returncode,
               stdout := (decodeAndTruncate proc.stdoutBytes
                 cfg.execution.maxStdoutBytes).1,
               stderr := (decodeAndTruncate proc.stderrBytes
                 cfg.execution.maxStderrBytes).1,
               truncatedStdout := (decodeAndTruncate proc.stdoutBytes
                 cfg.execution.maxStdoutBytes).2,
               truncatedStderr := (decodeAndTruncate proc.stderrBytes
                 cfg.execution.maxStderrBytes).2,
               timedOut := false, dryRun := false }) ∧
    (decodeAndTruncate (List.replicate 5000 120) 1000 =
      (String.mk (List.replicate 1000 'x'), true) ∧
     (String.mk (List.replicate 1000 'x')).length = 1000) := by
  refine ⟨?_, ?_, ?_, ?_, ?_⟩
  · intro data limit h
    simp [decodeAndTruncate, h]
  · intro data limit h
    have : ¬ data.length ≤ limit := by omega
    simp [decodeAndTruncate, this]
  · intro run baseEnv res al args cfg reqCwd over cwd proc hres hproc htime
    unfold executeAlias
    rw [hres]
    simp only [Bool.false_eq_true, if_false]
    rw [← hproc, htime]
    rfl
  · have hlen : (List.replicate 5000 (120 : Nat)).length = 5000 :=
      List.length_replicate 5000 120
    have hnot : ¬ (List.replicate 5000 (120 : Nat)).length ≤ 1000 := by
      rw [hlen]; omega
    have htake : (List.replicate 5000 (120 : Nat)).take 1000 =
        List.replicate 1000 (120 : Nat) := by
      rw [List.take_replicate]
      norm_num
    have hdec : decodeUtf8 (List.replicate 1000 (120 : Nat)) =
        List.replicate 1000 'x' := by
      unfold decodeUtf8
      rw [List.length_replicate]
      exact decodeUtf8F_replicate_x 1000
    show decodeAndTruncate (List.replicate 5000 120) 1000 =
      (String.mk (List.replicate 1000 'x'), true)
    unfold decodeAndTruncate
    rw [if_neg hnot, htake, hdec]
  · show (String.mk (List.replicate 1000 'x')).length = 1000
    rw [show (String.mk (List.replicate 1000 'x')).length =
      (List.replicate 1000 'x').length from rfl, List.length_replicate]

theorem C7_output_truncation_witness :
    decodeAndTruncate [104, 105] 10 = (String.mk (decodeUtf8 [104, 105]), false) ∧
    decodeAndTruncate [104, 105, 106] 2 =
      (String.mk (decodeUtf8 ([104, 105, 106].take 2)), true) ∧
    executeAlias runFast [] resTmp aliasEcho .noArgs cfgTmp false none none =
      .ok { command := "echo hi", cwd := ["tmp", "x"], exitCode := some 0,
            stdout := "hi", stderr := "",
            truncatedStdout := false, truncatedStderr := false,
            timedOut := false, dryRun := false } := by
  refine ⟨C7_output_truncation.1 [104, 105] 10 (by decide),
          C7_output_truncation.2.1 [104, 105, 106] 2 (by decide), ?_⟩
  have h := C7_output_truncation.2.2.1 runFast [] resTmp aliasEcho .noArgs cfgTmp
    none none ["tmp", "x"]
    (runFast "echo hi" ["tmp", "x"] (buildEnv [] cfgTmp ["tmp", "x"]))
    rfl rfl rfl
  exact h

def cfgZeroTimeout : Config :=
  { defaultCwd := "/tmp/x", allowCwdRoots := ["/tmp/x"],
    execution := { maxStdoutBytes := 1000, maxStderrBytes := 1000,
                   defaultTimeoutSeconds := 0 } }

def catalogGreet : String → Option AliasE :=
  fun n => if n = "greet" then some aliasEcho else none

def aliasUnsafe : AliasE :=
  { name := "danger", expansion := "rm -rf /", safe := false, sourceFile := "f" }

def catalogUnsafe : String → Option AliasE :=
  fun n => if n = "danger" then some aliasUnsafe else none

/-- C5 counterexample: the claim demands failure whenever a supplied
`timeoutSeconds` exceeds 5 times the configured default timeout, but the
code compares against `max(default, 1) * 5`: with a configured default of
`0`, a supplied timeout of `3` exceeds `5 * 0` yet the call succeeds (and
writes an audit line). -/
theorem C5_policy_gates_counterexample :
    ((3 : Int) > 5 * cfgZeroTimeout.execution.defaultTimeoutSeconds) ∧
    (exceptIsOk (aliasExec runFast [] resTmp "ts" catalogGreet cfgZeroTimeout
      "greet" none true false none (some 3)) = true) := by
  exact ⟨by decide, rfl⟩

/-- C5 (amended): `alias.exec` fails with a policy error whenever
`dryRun=false` and `confirm` is left false; it fails whenever the
resolved alias is classified unsafe and `dryRun=false`; and it fails
whenever a supplied `timeoutSeconds` is non-positive or exceeds
`5 * max(configured default timeout, 1)`. In each failure case the call
returns an error for every process oracle (so nothing executes) and no
audit line is produced (a successful return is the only carrier of the
audit line). -/
theorem C5_policy_gates_amended :
    (∀ (run : RunOracle) (baseEnv : List (String × String))
       (res : String → CanonPath) (ts : String)
       (catalog : String → Option AliasE) (cfg : Config) (name : String)
       (args : Option String) (cwd : Option String) (over : Option Int),
       aliasExec run baseEnv res ts catalog cfg name args false false cwd over =
         .error "Execution requires confirm=true; dry_run is enabled otherwise.") ∧
    (∀ (run : RunOracle) (baseEnv : List (String × String))
       (res : String → CanonPath) (ts : String)
       (catalog : String → Option AliasE) (cfg : Config) (name : String)
       (args : Option String) (confirm : Bool) (cwd : Option String)
       (over : Option Int) (al : AliasE),
       catalog name = some al → al.safe = false →
       ∃ e, aliasExec run baseEnv res ts catalog cfg name args false confirm
         cwd over = .error e) ∧
    (∀ (run : RunOracle) (baseEnv : List (String × String))
       (res : String → CanonPath) (ts : String)
       (catalog : String → Option AliasE) (cfg : Config) (name : String)
       (args : Option String) (dryRun confirm : Bool) (cwd : Option String)
       (v : Int), v ≤ 0 →
       ∃ e, aliasExec run baseEnv res ts catalog cfg name args dryRun confirm
         cwd (some v) = .error e) ∧
    (∀ (run : RunOracle) (baseEnv : List (String × String))
       (res : String → CanonPath) (ts : String)
       (catalog : String → Option AliasE) (cfg : Config) (name : String)
       (args : Option String) (dryRun confirm : Bool) (cwd : Option String)
       (v : Int), v > max cfg.execution.defaultTimeoutSeconds 1 * 5 →
       ∃ e, aliasExec run baseEnv res ts catalog cfg name args dryRun confirm
         cwd (some v) = .error e) := by
  refine ⟨?_, ?_, ?_, ?_⟩
  · intro run baseEnv res ts catalog cfg name args cwd over
    rfl
  · intro run baseEnv res ts catalog cfg name args confirm cwd over al hcat hsafe
    cases confirm
    · exact ⟨_, rfl⟩
    · simp only [aliasExec, hcat, hsafe]
      exact ⟨_, rfl⟩
  · intro run baseEnv res ts catalog cfg name args dryRun confirm cwd v hv
    cases hdc : (!dryRun && !confirm)
    · cases hcat : catalog name with
      | none =>
        simp only [aliasExec, hdc, hcat]
        exact ⟨_, rfl⟩
      | some al =>
        cases hsafe : (!al.safe && !dryRun)
        · simp only [aliasExec, hdc, hcat, hsafe]
          simp only [Bool.false_eq_true, if_false]
          rw [if_pos hv]
          exact ⟨_, rfl⟩
        · simp only [aliasExec, hdc, hcat, hsafe]
          exact ⟨_, rfl⟩
    · simp only [aliasExec, hdc]
      exact ⟨_, rfl⟩
  · intro run baseEnv res ts catalog cfg name args dryRun confirm cwd v hv
    have h1 : (1 : Int) ≤ max cfg.execution.defaultTimeoutSeconds 1 :=
      le_max_right cfg.execution.defaultTimeoutSeconds 1
    have h0 : ¬ v ≤ 0 := by nlinarith
    cases hdc : (!dryRun && !confirm)
    · cases hcat : catalog name with
      | none =>
        simp only [aliasExec, hdc, hcat]
        exact ⟨_, rfl⟩
      | some al =>
        cases hsafe : (!al.safe && !dryRun)
        · simp only [aliasExec, hdc, hcat, hsafe]
          simp only [Bool.false_eq_true, if_false]
          rw [if_neg h0, if_pos hv]
          exact ⟨_, rfl⟩
        · simp only [aliasExec, hdc, hcat, hsafe]
          exact ⟨_, rfl⟩
    · simp only [aliasExec, hdc]
      exact ⟨_, rfl⟩

theorem C5_policy_gates_amended_witness :
    (aliasExec runFast [] resTmp "ts" catalogGreet cfgTmp "greet" none false
      false none none =
      .error "Execution requires confirm=true; dry_run is enabled otherwise.") ∧
    (exceptIsOk (aliasExec runFast [] resTmp "ts" catalogUnsafe cfgTmp "danger"
      none false true none none) = false) ∧
    (exceptIsOk (aliasExec runFast [] resTmp "ts" catalogGreet cfgTmp "greet"
      none true false none (some (-2))) = false) ∧
    (exceptIsOk (aliasExec runFast [] resTmp "ts" catalogGreet cfgTmp "greet"
      none true false none (some 100)) = false) := by
  refine ⟨C5_policy_gates_amended.1 runFast [] resTmp "ts" catalogGreet cfgTmp
            "greet" none none none, ?_, ?_, ?_⟩
  · obtain ⟨e, he⟩ := C5_policy_gates_amended.2.1 runFast [] resTmp "ts"
      catalogUnsafe cfgTmp "danger" none true none none aliasUnsafe rfl rfl
    rw [he]
    rfl
  · obtain ⟨e, he⟩ := C5_policy_gates_amended.2.2.1 runFast [] resTmp "ts"
      catalogGreet cfgTmp "greet" none true false none (-2) (by decide)
    rw [he]
    rfl
  · obtain ⟨e, he⟩ := C5_policy_gates_amended.2.2.2 runFast [] resTmp "ts"
      catalogGreet cfgTmp "greet" none true false none 100 (by decide)
    rw [he]
    rfl

def resultC8 : ExecutionResult :=
  { command := "echo hi token=abcd", cwd := ["tmp", "x"], exitCode := some 0,
    stdout := "", stderr := "", truncatedStdout := false,
    truncatedStderr := false, timedOut := false, dryRun := false }

set_option maxRecDepth 16384

/-- C8: every string-valued field of the audit record (and every string
element of a list-valued field) is passed through the secret-redaction
substitution before serialisation; concretely, logging args
`token=abcd password=hunter2` yields a persisted line containing neither
`abcd` nor `hunter2`, with `<redacted>` markers in their place. -/
theorem C8_audit_redaction :
    (∀ (ts : String) (al : AliasE) (args : Args) (cwd : CanonPath)
       (result : ExecutionResult),
       redactEntry (auditEntry ts al args cwd result) =
         [("timestamp", .scalar (.jstr (redactStr ts))),
          ("alias", .scalar (.jstr (redactStr al.name))),
          ("safe", .scalar (.jbool al.safe)),
          ("args", .scalar (.jstr (redactStr (formatArgs args)))),
          ("cwd", .scalar (.jstr (redactStr (pathToString cwd)))),
          ("command", .scalar (.jstr (redactStr result.command))),
          ("exitCode", jintOpt result.exitCode),
          ("timedOut", .scalar (.jbool result.timedOut)),
          ("dryRun", .scalar (.jbool result.dryRun))]) ∧
    (∀ l : List JScalar, redactJ (.jlist l) = .jlist (l.map redactItem)) ∧
    (∀ s : String, redactItem (.jstr s) = .jstr (redactStr s)) ∧
    (redactStr "token=abcd password=hunter2" = "<redacted> <redacted>") ∧
    (decide ("abcd".data <:+: (auditPayload "2025-01-01T00:00:00+00:00"
      aliasEcho (.strArg "token=abcd password=hunter2") ["tmp", "x"]
      resultC8).data) = false) ∧
    (decide ("hunter2".data <:+: (auditPayload "2025-01-01T00:00:00+00:00"
      aliasEcho (.strArg "token=abcd password=hunter2") ["tmp", "x"]
      resultC8).data) = false) ∧
    ("<redacted>".data <:+: (auditPayload "2025-01-01T00:00:00+00:00"
      aliasEcho (.strArg "token=abcd password=hunter2") ["tmp", "x"]
      resultC8).data) := by
  refine ⟨?_, fun l => rfl, fun s => rfl, by decide, by decide, by decide,
          by decide⟩
  intro ts al args cwd result
  cases hec : result.exitCode <;>
    simp [redactEntry, auditEntry, redactJ, redactItem, jintOpt, hec]

end McpShellAliases
